import Mathlib

/-!
Shallow embedding of the synchronization engine in `src/main.py`
(class HeadHunterBitrixIntegration) and proofs about its behaviour.

Conventions of the embedding:
* HTTP traffic is modelled by scripts: a script assigns to each attempt
  (or each logical round) the outcome the network would produce.
* `time.sleep d` is modelled as advancing the clock by exactly `d`;
  clock values are rationals (seconds).
* Identifiers written to the ledger file are modelled as strings that
  are already whitespace-stripped (the code writes one id per line and
  strips lines on load), so `line.strip()` is the identity on them.
-/

namespace HHBitrix

/-! ### ThrottledTransport: `make_request` (src/main.py lines 132-161)

The python loop is `for attempt in range(self.max_retries)` with
`self.max_retries = 3` and `self.retry_delay = 5`.  Each iteration
issues one HTTP attempt; the outcome of attempt `i` is given by a
script `Nat → AttemptOutcome`.  A 429 response sleeps for the
Retry-After header value (falling back to `retry_delay`) and does
`continue`; any other response is returned; a transport exception on
the last iteration returns `None`, otherwise sleeps
`retry_delay * (attempt + 1)` and retries.  After the loop falls
through, `None` is returned. -/

/-- Outcome the network produces for one attempt: either a
connection-level exception (`requests.exceptions.RequestException`) or
a response with a status code and an optional integer Retry-After
header. -/
inductive AttemptOutcome
  | exn
  | resp (status : Nat) (retryAfter : Option Nat)
deriving DecidableEq, Repr

/-- Result of one `make_request` call: the returned status (`none` is
the python `None` sentinel), how many HTTP attempts were issued, and the
sequence of `time.sleep` durations performed by the retry logic
(`rate_limit` pacing is modelled separately). -/
structure MrRun where
  result : Option Nat
  attempts : Nat
  sleeps : List Nat
deriving DecidableEq, Repr

/-- `retry_delay` from `__init__` (line 75). -/
def retry_delay : Nat := 5

/-- `max_retries` from `__init__` (line 74). -/
def max_retries : Nat := 3

/-- The body of the `for attempt in range(max_retries)` loop of
`make_request`, starting at iteration `attempt` with `fuel` iterations
left (`fuel = max_retries - attempt`).  `attempts` in the result counts
all attempts from iteration 0. -/
def mrLoop (script : Nat → AttemptOutcome) : Nat → Nat → MrRun
  | attempt, 0 => ⟨none, attempt, []⟩
  | attempt, fuel + 1 =>
    match script attempt with
    | .exn =>
      if fuel = 0 then
        ⟨none, attempt + 1, []⟩
      else
        let r := mrLoop script (attempt + 1) fuel
        ⟨r.result, r.attempts, retry_delay * (attempt + 1) :: r.sleeps⟩
    | .resp 429 ra =>
      let r := mrLoop script (attempt + 1) fuel
      ⟨r.result, r.attempts, ra.getD retry_delay :: r.sleeps⟩
    | .resp s _ => ⟨some s, attempt + 1, []⟩

/-- `make_request` (lines 132-161): run the retry loop from attempt 0. -/
def make_request (script : Nat → AttemptOutcome) : MrRun :=
  mrLoop script 0 max_retries

/-! ### Pacing: `rate_limit` (src/main.py lines 124-130) -/

/-- `min_request_interval` from `__init__` (line 71), in seconds. -/
def min_request_interval : ℚ := 1

/-- One `rate_limit()` call.  `last` is `self.last_request_time` (the
start time of the previous request) and `gap ≥ 0` is the wall-clock
time that elapsed since then before `rate_limit` is entered.  The
returned value is the new `self.last_request_time`, i.e. the start
time of the current request: the code sleeps for the remainder of the
interval when the elapsed time is too small, then re-reads the clock. -/
def rate_limit (last gap : ℚ) : ℚ :=
  let now := last + gap
  if now - last < min_request_interval then
    now + (min_request_interval - (now - last))
  else
    now

/-- Start times of a sequence of calls through `rate_limit`, given the
start time of the previous request and the list of inter-arrival work gaps. -/
def startTimes : ℚ → List ℚ → List ℚ
  | _, [] => []
  | last, g :: gs =>
    let s := rate_limit last g
    s :: startTimes s gs

/-! ### Token expiry: `is_token_expired` (lines 118-122) and
`get_auth_headers` (lines 286-296) -/

/-- `is_token_expired`: with no stored expiry the token is treated as
valid; otherwise expired when `now >= expires_at - 5 minutes`
(300 seconds). -/
def is_token_expired (now : ℚ) : Option ℚ → Bool
  | none => false
  | some t => decide (t - 300 ≤ now)

/-- `get_auth_headers`: refreshes the token first when
`is_token_expired` holds; a failed refresh raises.  The embedding
returns `Except` (the raise) or the number of refresh calls performed
together with the bearer token used in the headers. -/
def get_auth_headers (now : ℚ) (expiresAt : Option ℚ) (refreshOk : Bool)
    (token : String) : Except String (Nat × String) :=
  if is_token_expired now expiresAt then
    if refreshOk then .ok (1, token) else .error "token expired and refresh failed"
  else
    .ok (0, token)

/-! ### Authenticated access test: `test_api_access` (lines 298-343)

The function issues a `/me` request; on a 401 it calls
`refresh_access_token()` when a refresh token is present and, when the
refresh succeeds, calls itself recursively.  A script entry gives the
`/me` response of one round together with whether a refresh attempted
in that round would succeed; an empty script models `make_request`
returning `None`.  The token is assumed outside the proactive-refresh
window, so `get_auth_headers` performs no refresh of its own here. -/

/-- Response of the `/me` endpoint in one round of `test_api_access`. -/
inductive MeResp
  | ok (isEmployer : Bool)
  | unauthorized
  | forbidden
  | notFound
  | other (code : Nat)
deriving DecidableEq, Repr

/-- `test_api_access`, returning the success flag and the number of
`refresh_access_token` calls performed across all recursive rounds. -/
def test_api_access (hasRefreshToken : Bool) :
    List (MeResp × Bool) → Bool × Nat
  | [] => (false, 0)
  | (r, refreshOk) :: rest =>
    match r with
    | .ok emp => (emp, 0)
    | .unauthorized =>
      if hasRefreshToken then
        if refreshOk then
          let p := test_api_access hasRefreshToken rest
          (p.1, p.2 + 1)
        else (false, 1)
      else (false, 0)
    | _ => (false, 0)

/-! ### SourceGateway: `get_hh_applications` (lines 345-450)

The code resolves the employer id, then issues exactly one
`/vacancies` request with `page = 0, per_page = 100`, and for each
returned vacancy that has an id exactly one `/negotiations` request
with `page = 0, per_page = 100`; a negotiation becomes an application
when its id is non-empty and not yet in `self.processed_ids`.  The
upstream is modelled as page-indexed item lists. -/

/-- One vacancy item as returned by the upstream (id may be missing;
`name` already carries the fallback default applied by the code). -/
structure Vacancy where
  id : Option String
  name : String
deriving DecidableEq, Repr

/-- Upstream state: the items of each page of the `/vacancies` listing
and, per vacancy id, the items of each page of its `/negotiations`
listing (negotiation items reduced to their id strings). -/
structure Upstream where
  vacancyPage : Nat → List Vacancy
  negotiationPage : String → Nat → List String

/-- The body of the `for vacancy in vacancies` loop (lines 407-441):
a vacancy without an id is skipped; otherwise its first negotiations
page is fetched and each negotiation with a non-empty id not yet in
`processed_ids` is collected as `(id, vacancy name)`. -/
def vacancyApps (u : Upstream) (processed_ids : Finset String)
    (v : Vacancy) : List (String × String) :=
  match v.id with
  | none => []
  | some vid =>
    (u.negotiationPage vid 0).filterMap fun nid =>
      if nid ≠ "" ∧ nid ∉ processed_ids then some (nid, v.name) else none

/-- `get_hh_applications`: applications collected by the code, each as
(negotiation id, vacancy name).  Only page 0 of each listing is ever
requested. -/
def get_hh_applications (u : Upstream) (processed_ids : Finset String) :
    List (String × String) :=
  (u.vacancyPage 0).flatMap (vacancyApps u processed_ids)

/-- Modelled from the spec (section 4.4, steps 2-3): enumerate a paged
listing by requesting successive pages of size 100 and stopping as
soon as a page returns fewer than 100 items (in particular an empty
page).  `fuel` bounds the number of pages requested. -/
def pagedItems (pages : Nat → List α) : Nat → Nat → List α
  | _, 0 => []
  | page, fuel + 1 =>
    let items := pages page
    if items.length < 100 then items
    else items ++ pagedItems pages (page + 1) fuel

/-- A concrete upstream state: the first postings page is full (100
vacancies, ids `"0"`..`"99"`, none with negotiations) and the second
page holds one further vacancy `"x"` with one negotiation `"nx"`. -/
def fullFirstPageUpstream : Upstream where
  vacancyPage p :=
    if p = 0 then (List.range 100).map (fun i => ⟨some (toString i), "V"⟩)
    else if p = 1 then [⟨some "x", "X"⟩]
    else []
  negotiationPage vid _ := if vid = "x" then ["nx"] else []

/-! ### DedupLedger and SyncOrchestrator:
`load_processed_ids` (80-89), `save_processed_id` (91-99),
`process_applications` (623-681) -/

/-- Ledger state: the lines of `processed_applications.txt` and the
in-memory `self.processed_ids` set. -/
structure LedgerState where
  fileLines : List String
  processed_ids : Finset String
deriving DecidableEq

/-- `load_processed_ids`: read the ledger file, strip lines, drop
empties, collect into a set (ids are modelled pre-stripped). -/
def load_processed_ids (lines : List String) : Finset String :=
  (lines.filter (· ≠ "")).toFinset

/-- `save_processed_id`: append the id as a line to the ledger file,
then add it to the in-memory set. -/
def save_processed_id (s : LedgerState) (app_id : String) : LedgerState :=
  ⟨s.fileLines ++ [app_id], insert app_id s.processed_ids⟩

/-- Result of one `process_applications` batch: the ids passed to
`create_bitrix_lead` in order, the ledger state afterwards, and the
counters feeding the summary message. -/
structure ProcResult where
  calls : List String
  state : LedgerState
  processed_count : Nat
  success_count : Nat
deriving DecidableEq

/-- The per-application loop of `process_applications` (lines 647-666):
for each fetched application, in fetch order, skip when the id is
already in `processed_ids`; otherwise call `create_bitrix_lead`
(its outcome is the Bool of the event), count a success when it
returns true, and unconditionally `save_processed_id`.  Events are
(id, delivery succeeds) pairs. -/
def processLoop (s : LedgerState) : List (String × Bool) → ProcResult
  | [] => ⟨[], s, 0, 0⟩
  | (app_id, ok) :: rest =>
    if app_id ∈ s.processed_ids then
      processLoop s rest
    else
      let r := processLoop (save_processed_id s app_id) rest
      ⟨app_id :: r.calls, r.state, r.processed_count + 1,
        r.success_count + (if ok then 1 else 0)⟩

/-- Whether `process_applications` sends the summary message (line
669: only when `processed_count > 0`), and the failure count it
reports (line 674: `processed_count - success_count`). -/
def summary (r : ProcResult) : Bool × Nat :=
  (decide (0 < r.processed_count), r.processed_count - r.success_count)

/-! ### Sync cycles across restarts

A run of the system is a sequence of steps: a sync cycle processing a
batch of fetched events (their ids and delivery outcomes), or a process
restart that reloads the in-memory set from the same ledger file via
`load_processed_ids` (as `__init__` does at line 67). -/

/-- One step of a run: a sync cycle over fetched events, or a restart
that reloads the ledger file. -/
inductive Step
  | cycle (events : List (String × Bool))
  | restart
deriving DecidableEq

/-- The event ids a step feeds into `process_applications` (empty for
a restart). -/
def stepIds : Step → List String
  | .cycle events => events.map Prod.fst
  | .restart => []

/-- Execute one step, returning the ids passed to `create_bitrix_lead`
during it and the resulting ledger state. -/
def runStep (s : LedgerState) : Step → List String × LedgerState
  | .cycle events =>
    let r := processLoop s events
    (r.calls, r.state)
  | .restart => ([], ⟨s.fileLines, load_processed_ids s.fileLines⟩)

/-- All ids passed to `create_bitrix_lead` over a whole run, in order. -/
def runTrace (s : LedgerState) : List Step → List String
  | [] => []
  | st :: rest =>
    let p := runStep s st
    p.1 ++ runTrace p.2 rest

/-! ### Ledger compaction: `cleanup_old_processed_ids` (lines 683-717)

The code returns early when the ledger file does not exist; otherwise
it first writes a dated backup copy of the file (only when the backup
file for today does not already exist), then, when the file size exceeds
10MB, rewrites the file with its last 10000 lines and rebuilds the
in-memory set from them. -/

/-- Byte size of the ledger file: each id line contributes its length
plus one for the newline (ids are ASCII, one byte per character). -/
def ledgerSize (lines : List String) : Nat :=
  (lines.map (fun l => l.length + 1)).sum

/-- `10 * 1024 * 1024` from line 698. -/
def maxBytes : Nat := 10485760

/-- The `10000` entry cap from line 706. -/
def maxEntries : Nat := 10000

/-- State touched by `cleanup_old_processed_ids`: whether the ledger
file exists and its lines, the in-memory set, and the content of
the dated backup file for today (if present). -/
structure CleanupEnv where
  fileExists : Bool
  fileLines : List String
  processed_ids : Finset String
  todayBackup : Option (List String)
deriving DecidableEq

/-- `cleanup_old_processed_ids`. -/
def cleanup_old_processed_ids (env : CleanupEnv) : CleanupEnv :=
  if env.fileExists = false then env
  else
    let env1 :=
      match env.todayBackup with
      | none => { env with todayBackup := some env.fileLines }
      | some _ => env
    if maxBytes < ledgerSize env1.fileLines then
      let lines := env1.fileLines
      let keep_lines :=
        if maxEntries < lines.length then lines.drop (lines.length - maxEntries)
        else lines
      { env1 with
          fileLines := keep_lines
          processed_ids := (keep_lines.filter (· ≠ "")).toFinset }
    else env1

/-- A concrete oversize ledger environment: 10486 lines of 1000
characters each (10486 * 1001 bytes, beyond the 10MB threshold). -/
def bigLedgerEnv : CleanupEnv :=
  ⟨true, List.replicate 10486 (String.mk (List.replicate 1000 'a')), ∅, none⟩

/-- A concrete small ledger environment (4 bytes). -/
def smallLedgerEnv : CleanupEnv :=
  ⟨true, ["a", "b"], {"a", "b"}, none⟩

/-! ## Theorems -/

/-- C3, counterexample: three consecutive 429 responses exhaust
`make_request` into the `None` outcome after exactly 3 attempts — the
rate-limit re-attempts do count against the transport-failure attempt
cap, contradicting the claim that consecutive 429 responses can never
exhaust the call. -/
theorem make_request_429_exhausts :
    make_request (fun _ => .resp 429 (some 7)) =
      ⟨none, 3, [7, 7, 7]⟩ := by
  rfl

/-- C3, amended: a 429 response causes a sleep for the Retry-After
value (falling back to `retry_delay` when the header is absent)
followed by a re-attempt, but each such re-attempt consumes one of the
`max_retries = 3` loop iterations: a 429 followed by a 200 succeeds in
2 attempts after one Retry-After sleep, while three consecutive 429
responses sleep three times and return `None`. -/
theorem make_request_429_sleeps_and_counts (ra : Option Nat) :
    make_request (fun i => if i = 0 then .resp 429 ra else .resp 200 none) =
      ⟨some 200, 2, [ra.getD retry_delay]⟩ ∧
    make_request (fun _ => .resp 429 ra) =
      ⟨none, 3, List.replicate 3 (ra.getD retry_delay)⟩ := by
  constructor <;> rfl

/-- C4: transport failures are retried up to the cap of 3 attempts
with sleep `retry_delay * attemptNumber` between attempts; failures on
attempts 1 and 2 with success on attempt 3 yield exactly 3 attempts,
the sleeps 5 and 10, and the successful response, while a script that
fails on every attempt yields the `None` sentinel after exactly 3
attempts (the function is total, so no error is ever raised). -/
theorem make_request_transport_retry :
    make_request (fun i => if i < 2 then .exn else .resp 200 none) =
      ⟨some 200, 3, [retry_delay * 1, retry_delay * 2]⟩ ∧
    ∀ script : Nat → AttemptOutcome,
      (∀ i, i < max_retries → script i = .exn) →
      make_request script = ⟨none, 3, [retry_delay * 1, retry_delay * 2]⟩ := by
  refine ⟨by rfl, fun script h => ?_⟩
  have h0 := h 0 (by norm_num [max_retries])
  have h1 := h 1 (by norm_num [max_retries])
  have h2 := h 2 (by norm_num [max_retries])
  simp [make_request, max_retries, mrLoop, h0, h1, h2]

/-- C4 witness: instantiating the all-failures part at the constant
failing script. -/
theorem make_request_transport_retry_witness :
    make_request (fun _ => .exn) = ⟨none, 3, [retry_delay * 1, retry_delay * 2]⟩ :=
  (make_request_transport_retry).2 (fun _ => .exn) (fun _ _ => rfl)

/-- After `rate_limit`, the new request start time is at least
`min_request_interval` later than the previous one, for any nonneg
amount of time elapsed in between. -/
theorem rate_limit_spaces (last gap : ℚ) :
    last + min_request_interval ≤ rate_limit last gap := by
  unfold rate_limit
  dsimp only
  split <;> [linarith; linarith [not_lt.mp (by assumption)]]

/-- C5: for every sequence of calls through `rate_limit` (given by the
nonnegative wall-clock gaps between a request start and the start of
the next `rate_limit` call), consecutive request start times are at
least `min_request_interval` (1 second) apart, including the gap to the
start time `last` of the previous request. -/
theorem rate_limit_min_interval (last : ℚ) (gaps : List ℚ)
    (h : ∀ g ∈ gaps, 0 ≤ g) :
    List.Chain (fun a b => a + min_request_interval ≤ b) last
      (startTimes last gaps) := by
  induction gaps generalizing last with
  | nil => exact List.Chain.nil
  | cons g gs ih =>
    exact List.Chain.cons (rate_limit_spaces last g)
      (ih _ fun x hx => h x (by simp [hx]))

/-- C5 witness: a concrete run with gaps 1/2, 3 and 0 seconds. -/
theorem rate_limit_min_interval_witness :
    List.Chain (fun a b => a + min_request_interval ≤ b) 0
      (startTimes 0 [1/2, 3, 0]) :=
  rate_limit_min_interval 0 [1/2, 3, 0] (by norm_num)

/-- C6: `get_auth_headers` performs exactly one refresh when the
stored expiry is 2 minutes away (since `now ≥ expiresAt - 5 min`),
zero refreshes when it is 1 hour away, and zero refreshes when no
expiry is stored (absent expiry is treated as valid). -/
theorem get_auth_headers_refresh_policy (now : ℚ) (refreshOk : Bool)
    (token : String) :
    get_auth_headers now (some (now + 120)) true token = .ok (1, token) ∧
    get_auth_headers now (some (now + 3600)) refreshOk token = .ok (0, token) ∧
    get_auth_headers now none refreshOk token = .ok (0, token) := by
  have h1 : is_token_expired now (some (now + 120)) = true := by
    simp only [is_token_expired, decide_eq_true_eq]
    linarith
  have h2 : is_token_expired now (some (now + 3600)) = false := by
    simp only [is_token_expired, decide_eq_false_iff_not, not_le]
    linarith
  refine ⟨?_, ?_, ?_⟩
  · simp [get_auth_headers, h1]
  · simp [get_auth_headers, h2]
  · simp [get_auth_headers, is_token_expired]

/-- C8, counterexample: with two consecutive unauthorized responses
(each followed by a successful refresh) and then a successful employer
check, `test_api_access` succeeds after two refreshes and two retries
— a second unauthorized response is not a hard failure and the
retry-after-refresh pattern is not bounded by one retry. -/
theorem test_api_access_second_401_not_hard_failure :
    test_api_access true
      [(.unauthorized, true), (.unauthorized, true), (.ok true, true)] =
      (true, 2) := by
  rfl

/-- C8, amended: each unauthorized response triggers one refresh
attempt and, when the refresh succeeds, a full recursive retry of the
whole check — there is no bound on the number of refresh-and-retry
rounds while refreshes keep succeeding; the pattern is a hard failure
only when the refresh token is absent (no refresh) or the refresh
attempt fails (one refresh, then failure). -/
theorem test_api_access_recursive_refresh :
    (∀ rest : List (MeResp × Bool),
      test_api_access true ((.unauthorized, true) :: rest) =
        ((test_api_access true rest).1, (test_api_access true rest).2 + 1)) ∧
    (∀ rest : List (MeResp × Bool),
      test_api_access true ((.unauthorized, false) :: rest) = (false, 1)) ∧
    (∀ (rest : List (MeResp × Bool)) (refreshOk : Bool),
      test_api_access false ((.unauthorized, refreshOk) :: rest) = (false, 0)) := by
  refine ⟨fun rest => ?_, fun rest => rfl, fun rest refreshOk => rfl⟩
  rfl

/-- C2, counterexample: in `fullFirstPageUpstream` the first postings
page is full (100 items), so the paged enumeration of the spec (`pagedItems`)
reaches the page-1 posting `"x"`; yet its negotiation `"nx"` is never
enumerated by `get_hh_applications`, which requests only page 0 —
refuting the claim that every active posting and negotiation is
enumerated, not only those on the first page. -/
theorem get_hh_applications_misses_second_page :
    (fullFirstPageUpstream.vacancyPage 0).length = 100 ∧
    (⟨some "x", "X"⟩ : Vacancy) ∈ pagedItems fullFirstPageUpstream.vacancyPage 0 2 ∧
    "nx" ∈ fullFirstPageUpstream.negotiationPage "x" 0 ∧
    ("nx", "X") ∉ get_hh_applications fullFirstPageUpstream ∅ := by
  decide

/-- Membership in the applications collected for one vacancy. -/
theorem mem_vacancyApps (u : Upstream) (processed : Finset String)
    (v : Vacancy) (nid vname : String) :
    (nid, vname) ∈ vacancyApps u processed v ↔
      ∃ vid, v.id = some vid ∧ v.name = vname ∧
        nid ∈ u.negotiationPage vid 0 ∧ nid ≠ "" ∧ nid ∉ processed := by
  cases hv : v.id with
  | none => simp [vacancyApps, hv]
  | some vid =>
    simp only [vacancyApps, hv, List.mem_filterMap, Option.ite_none_right_eq_some,
      Option.some.injEq, Prod.mk.injEq]
    constructor
    · rintro ⟨a, ha, ⟨hne, hnp⟩, rfl, rfl⟩
      exact ⟨vid, rfl, rfl, ha, hne, hnp⟩
    · rintro ⟨vid', hvid, rfl, hmem, hne, hnp⟩
      cases hvid
      exact ⟨nid, hmem, ⟨hne, hnp⟩, rfl, rfl⟩

/-- C2, amended: `get_hh_applications` requests only the first page
(page 0, page size 100) of the postings listing and of the
negotiations listing of each posting: an event `(nid, vname)` is enumerated iff it
arises from a posting on the first postings page whose first
negotiations page contains `nid`, with `nid` non-empty and not yet
processed.  Postings or negotiations beyond the first page are never
enumerated, even when the first page is full. -/
theorem get_hh_applications_first_page_only (u : Upstream)
    (processed : Finset String) (nid vname : String) :
    (nid, vname) ∈ get_hh_applications u processed ↔
      ∃ v ∈ u.vacancyPage 0, ∃ vid, v.id = some vid ∧ v.name = vname ∧
        nid ∈ u.negotiationPage vid 0 ∧ nid ≠ "" ∧ nid ∉ processed := by
  simp [get_hh_applications, List.mem_flatMap, mem_vacancyApps]

/-- C7: events are processed in fetch order; an id already in the
ledger (`c`) is skipped, every other id is passed to
`create_bitrix_lead` and then recorded in the ledger (file and
in-memory set) regardless of the delivery outcome.  With two new
events of which the second is rejected, both ids end up recorded,
`processed_count = 2`, `success_count = 1`, and the summary reports
one failure (`processed_count - success_count`). -/
theorem process_applications_records_attempted (s : LedgerState)
    (a b c : String) (oc : Bool)
    (hc : c ∈ s.processed_ids) (ha : a ∉ s.processed_ids)
    (hb : b ∉ s.processed_ids) (hab : a ≠ b) :
    (processLoop s [(c, oc), (a, true), (b, false)]).calls = [a, b] ∧
    (processLoop s [(c, oc), (a, true), (b, false)]).state.fileLines =
      s.fileLines ++ [a, b] ∧
    (processLoop s [(c, oc), (a, true), (b, false)]).state.processed_ids =
      insert b (insert a s.processed_ids) ∧
    (processLoop s [(c, oc), (a, true), (b, false)]).processed_count = 2 ∧
    (processLoop s [(c, oc), (a, true), (b, false)]).success_count = 1 ∧
    summary (processLoop s [(c, oc), (a, true), (b, false)]) = (true, 1) := by
  have hba : b ≠ a := Ne.symm hab
  simp [processLoop, save_processed_id, summary, hc, ha, hb, hba]

/-- C7 witness: concrete run from a ledger that already contains
`"c"`, with new ids `"a"` (delivered) and `"b"` (rejected). -/
theorem process_applications_records_attempted_witness :
    (processLoop ⟨["c"], {"c"}⟩ [("c", true), ("a", true), ("b", false)]).calls =
      ["a", "b"] ∧
    (processLoop ⟨["c"], {"c"}⟩ [("c", true), ("a", true), ("b", false)]).state.fileLines =
      ["c"] ++ ["a", "b"] ∧
    (processLoop ⟨["c"], {"c"}⟩ [("c", true), ("a", true), ("b", false)]).state.processed_ids =
      insert "b" (insert "a" {"c"}) ∧
    (processLoop ⟨["c"], {"c"}⟩ [("c", true), ("a", true), ("b", false)]).processed_count = 2 ∧
    (processLoop ⟨["c"], {"c"}⟩ [("c", true), ("a", true), ("b", false)]).success_count = 1 ∧
    summary (processLoop ⟨["c"], {"c"}⟩ [("c", true), ("a", true), ("b", false)]) =
      (true, 1) :=
  process_applications_records_attempted ⟨["c"], {"c"}⟩ "a" "b" "c" true
    (by decide) (by decide) (by decide) (by decide)

/-- Core behaviour of one `process_applications` batch: the ids passed
to `create_bitrix_lead` are pairwise distinct, none of them was in the
in-memory set before the batch, each comes from the fetched events,
and both the in-memory set and the ledger file grow by exactly the
attempted ids. -/
theorem processLoop_spec (events : List (String × Bool)) (s : LedgerState) :
    (processLoop s events).calls.Nodup ∧
    (∀ c ∈ (processLoop s events).calls, c ∉ s.processed_ids) ∧
    (∀ c ∈ (processLoop s events).calls, c ∈ events.map Prod.fst) ∧
    (processLoop s events).state.processed_ids =
      s.processed_ids ∪ (processLoop s events).calls.toFinset ∧
    (processLoop s events).state.fileLines =
      s.fileLines ++ (processLoop s events).calls := by
  induction events generalizing s with
  | nil => simp [processLoop]
  | cons ev rest ih =>
    obtain ⟨id, ok⟩ := ev
    by_cases h : id ∈ s.processed_ids
    · obtain ⟨h1, h2, h3, h4, h5⟩ := ih s
      refine ⟨?_, ?_, ?_, ?_, ?_⟩ <;>
        simp only [processLoop, if_pos h, List.map_cons]
      · exact h1
      · exact h2
      · exact fun c hc => List.mem_cons_of_mem _ (h3 c hc)
      · exact h4
      · exact h5
    · obtain ⟨h1, h2, h3, h4, h5⟩ := ih (save_processed_id s id)
      have hid : id ∉ (processLoop (save_processed_id s id) rest).calls := by
        intro hmem
        exact h2 id hmem (Finset.mem_insert_self id s.processed_ids)
      refine ⟨?_, ?_, ?_, ?_, ?_⟩ <;>
        simp only [processLoop, if_neg h, List.map_cons]
      · exact List.Nodup.cons hid h1
      · intro c hc
        rcases List.mem_cons.mp hc with rfl | hc'
        · exact h
        · exact fun hcs => h2 c hc' (Finset.mem_insert_of_mem hcs)
      · intro c hc
        rcases List.mem_cons.mp hc with rfl | hc'
        · exact List.mem_cons_self c _
        · exact List.mem_cons_of_mem _ (h3 c hc')
      · rw [h4]
        simp [save_processed_id, Finset.insert_union, Finset.union_insert]
      · rw [h5]
        simp [save_processed_id]

/-- Across any run from a state whose in-memory set is exactly the
loaded content of its ledger file, the ids passed to
`create_bitrix_lead` are pairwise distinct and disjoint from the
initial in-memory set, provided every fetched event id is non-empty
(as `get_hh_applications` guarantees at line 429). -/
theorem runTrace_spec (trace : List Step) (s : LedgerState)
    (hs : s.processed_ids = load_processed_ids s.fileLines)
    (hne : ∀ st ∈ trace, ∀ id ∈ stepIds st, id ≠ "") :
    (runTrace s trace).Nodup ∧
    ∀ c ∈ runTrace s trace, c ∉ s.processed_ids := by
  induction trace generalizing s with
  | nil => simp [runTrace]
  | cons st rest ih =>
    have hneRest : ∀ st' ∈ rest, ∀ id ∈ stepIds st', id ≠ "" :=
      fun st' hst' => hne st' (List.mem_cons_of_mem _ hst')
    cases st with
    | restart =>
      have hs' : (⟨s.fileLines, load_processed_ids s.fileLines⟩ :
          LedgerState).processed_ids =
          load_processed_ids (⟨s.fileLines, load_processed_ids s.fileLines⟩ :
            LedgerState).fileLines := rfl
      obtain ⟨h1, h2⟩ := ih _ hs' hneRest
      refine ⟨?_, ?_⟩ <;> simp only [runTrace, runStep, List.nil_append]
      · exact h1
      · intro c hc
        rw [hs]
        exact h2 c hc
    | cycle events =>
      obtain ⟨p1, p2, p3, p4, p5⟩ := processLoop_spec events s
      have hcne : ∀ c ∈ (processLoop s events).calls, c ≠ "" := by
        intro c hc
        exact hne (.cycle events) (List.mem_cons_self _ _) c (p3 c hc)
      have hcalls : (processLoop s events).calls.filter (· ≠ "") =
          (processLoop s events).calls :=
        List.filter_eq_self.mpr fun a ha => decide_eq_true (hcne a ha)
      have hs' : (processLoop s events).state.processed_ids =
          load_processed_ids (processLoop s events).state.fileLines := by
        rw [p4, p5, hs]
        unfold load_processed_ids
        rw [List.filter_append, List.toFinset_append, hcalls]
      obtain ⟨h1, h2⟩ := ih _ hs' hneRest
      refine ⟨?_, ?_⟩ <;> simp only [runTrace, runStep]
      · rw [List.nodup_append]
        refine ⟨p1, h1, fun a ha hb => ?_⟩
        have hmem : a ∈ (processLoop s events).state.processed_ids := by
          rw [p4]
          exact Finset.mem_union_right _ (List.mem_toFinset.mpr ha)
        exact h2 a hb hmem
      · intro c hc
        rcases List.mem_append.mp hc with hc' | hc'
        · exact p2 c hc'
        · intro hcs
          exact h2 c hc' (by rw [p4]; exact Finset.mem_union_left _ hcs)

/-- C1: starting from any ledger file (with the in-memory set freshly
loaded from it, as `__init__` does) and running any sequence of sync
cycles and restarts that reload the same ledger file, no id is ever
passed to `create_bitrix_lead` twice, and no id already present in the
initial ledger file is ever passed to it — provided every fetched
event id is a non-empty string, which `get_hh_applications`
guarantees. -/
theorem no_duplicate_lead_delivery (file₀ : List String) (trace : List Step)
    (hne : ∀ st ∈ trace, ∀ id ∈ stepIds st, id ≠ "") :
    (runTrace ⟨file₀, load_processed_ids file₀⟩ trace).Nodup ∧
    ∀ c ∈ runTrace ⟨file₀, load_processed_ids file₀⟩ trace,
      c ∉ load_processed_ids file₀ :=
  runTrace_spec trace ⟨file₀, load_processed_ids file₀⟩ rfl hne

/-- C1 witness: a run over the ledger file containing `"x"`, with a
first cycle fetching `"x"` (already ledgered) and `"a"` twice, a
restart, and a second cycle fetching `"a"` again plus a new `"b"`. -/
theorem no_duplicate_lead_delivery_witness :
    (∀ st ∈ [Step.cycle [("x", true), ("a", true), ("a", false)], Step.restart,
        Step.cycle [("a", true), ("b", false)]],
      ∀ id ∈ stepIds st, id ≠ "") ∧
    (runTrace ⟨["x"], load_processed_ids ["x"]⟩
        [Step.cycle [("x", true), ("a", true), ("a", false)], Step.restart,
          Step.cycle [("a", true), ("b", false)]]).Nodup ∧
    ∀ c ∈ runTrace ⟨["x"], load_processed_ids ["x"]⟩
        [Step.cycle [("x", true), ("a", true), ("a", false)], Step.restart,
          Step.cycle [("a", true), ("b", false)]],
      c ∉ load_processed_ids ["x"] :=
  ⟨by decide, no_duplicate_lead_delivery ["x"]
    [Step.cycle [("x", true), ("a", true), ("a", false)], Step.restart,
      Step.cycle [("a", true), ("b", false)]] (by decide)⟩

/-- C9: when the ledger file exceeds `maxBytes` (10MB) and holds at
least `maxEntries` (10000) lines, `cleanup_old_processed_ids` first
records a dated backup of the pre-compaction file, then keeps exactly
the most recent 10000 lines, and afterwards the in-memory set contains
exactly the retained (non-empty) ids: membership is true for every
retained id and false for every evicted one. -/
theorem cleanup_keeps_most_recent (env : CleanupEnv)
    (hex : env.fileExists = true) (hb : env.todayBackup = none)
    (hsz : maxBytes < ledgerSize env.fileLines)
    (hlen : maxEntries ≤ env.fileLines.length) :
    (cleanup_old_processed_ids env).fileLines =
      env.fileLines.drop (env.fileLines.length - maxEntries) ∧
    (cleanup_old_processed_ids env).fileLines.length = maxEntries ∧
    (cleanup_old_processed_ids env).todayBackup = some env.fileLines ∧
    ∀ id, id ∈ (cleanup_old_processed_ids env).processed_ids ↔
      (id ∈ (cleanup_old_processed_ids env).fileLines ∧ id ≠ "") := by
  have hkeep :
      (if maxEntries < env.fileLines.length then
        env.fileLines.drop (env.fileLines.length - maxEntries)
       else env.fileLines) =
      env.fileLines.drop (env.fileLines.length - maxEntries) := by
    rcases lt_or_eq_of_le hlen with hlt | heq
    · rw [if_pos hlt]
    · rw [if_neg (by omega), ← heq, Nat.sub_self, List.drop_zero]
  have henv : cleanup_old_processed_ids env =
      { env with
          fileLines := env.fileLines.drop (env.fileLines.length - maxEntries)
          processed_ids :=
            ((env.fileLines.drop (env.fileLines.length - maxEntries)).filter
              (· ≠ "")).toFinset
          todayBackup := some env.fileLines } := by
    unfold cleanup_old_processed_ids
    rw [hex, hb]
    simp only [Bool.true_eq_false, if_false, if_pos hsz, hkeep]
  refine ⟨by rw [henv], ?_, by rw [henv], ?_⟩
  · rw [henv]
    simp only [List.length_drop]
    omega
  · intro id
    rw [henv]
    simp [List.mem_filter]

/-- C9 witness: compacting the concrete oversize ledger
`bigLedgerEnv`. -/
theorem cleanup_keeps_most_recent_witness :
    (bigLedgerEnv.fileExists = true ∧ bigLedgerEnv.todayBackup = none ∧
      maxBytes < ledgerSize bigLedgerEnv.fileLines ∧
      maxEntries ≤ bigLedgerEnv.fileLines.length) ∧
    ((cleanup_old_processed_ids bigLedgerEnv).fileLines =
      bigLedgerEnv.fileLines.drop (bigLedgerEnv.fileLines.length - maxEntries) ∧
    (cleanup_old_processed_ids bigLedgerEnv).fileLines.length = maxEntries ∧
    (cleanup_old_processed_ids bigLedgerEnv).todayBackup =
      some bigLedgerEnv.fileLines ∧
    ∀ id, id ∈ (cleanup_old_processed_ids bigLedgerEnv).processed_ids ↔
      (id ∈ (cleanup_old_processed_ids bigLedgerEnv).fileLines ∧ id ≠ "")) := by
  have hsz : maxBytes < ledgerSize bigLedgerEnv.fileLines := by
    simp only [bigLedgerEnv, ledgerSize, maxBytes, List.map_replicate,
      List.sum_replicate, smul_eq_mul, String.length]
    norm_num
  have hlen : maxEntries ≤ bigLedgerEnv.fileLines.length := by
    simp only [bigLedgerEnv, maxEntries, List.length_replicate]
    norm_num
  exact ⟨⟨rfl, rfl, hsz, hlen⟩,
    cleanup_keeps_most_recent bigLedgerEnv rfl rfl hsz hlen⟩

/-- C10: when the ledger file does not exceed `maxBytes`,
`cleanup_old_processed_ids` changes neither the lines of the ledger file
nor the in-memory set; its only effect is ensuring the dated
backup copy of the file for today exists (when the file itself exists). -/
theorem cleanup_small_file_frame (env : CleanupEnv)
    (hsz : ledgerSize env.fileLines ≤ maxBytes) :
    (cleanup_old_processed_ids env).fileLines = env.fileLines ∧
    (cleanup_old_processed_ids env).processed_ids = env.processed_ids ∧
    (cleanup_old_processed_ids env).fileExists = env.fileExists ∧
    (cleanup_old_processed_ids env).todayBackup =
      (if env.fileExists = false then env.todayBackup
       else some (env.todayBackup.getD env.fileLines)) := by
  unfold cleanup_old_processed_ids
  by_cases hex : env.fileExists = false
  · simp [hex]
  · cases hback : env.todayBackup <;>
      simp [hex, hback, not_lt.mpr hsz]

/-- C10 witness: the concrete 4-byte ledger `smallLedgerEnv` is left
unchanged apart from the backup. -/
theorem cleanup_small_file_frame_witness :
    ledgerSize smallLedgerEnv.fileLines ≤ maxBytes ∧
    ((cleanup_old_processed_ids smallLedgerEnv).fileLines =
      smallLedgerEnv.fileLines ∧
    (cleanup_old_processed_ids smallLedgerEnv).processed_ids =
      smallLedgerEnv.processed_ids ∧
    (cleanup_old_processed_ids smallLedgerEnv).fileExists =
      smallLedgerEnv.fileExists ∧
    (cleanup_old_processed_ids smallLedgerEnv).todayBackup =
      (if smallLedgerEnv.fileExists = false then smallLedgerEnv.todayBackup
       else some (smallLedgerEnv.todayBackup.getD smallLedgerEnv.fileLines))) :=
  ⟨by decide, cleanup_small_file_frame smallLedgerEnv (by decide)⟩

end HHBitrix
